import Mathlib

/-!
# Verification of the LexiSearch dictionary client (src/script.js)

This file shallowly embeds the logic of `src/script.js`: the JavaScript value
domain the script manipulates (JSON-representable values plus host coercions),
the `JSON.parse` / `JSON.stringify` pair the script relies on for its persisted
search history, the history operations (`addToSearchHistory`, the startup load
on line 12), the search control flow (`performSearch`), the result renderer
(`displayWordInfo`), and the part-of-speech icon table
(`getPartOfSpeechIcon`).  Host primitives (`JSON.parse`, `String.prototype`
methods, property access) are modelled explicitly; every modelling decision is
recorded in the doc comment of the definition it concerns.
-/

/-- The domain of JavaScript values produced by `JSON.parse` and manipulated by
the script.  Numbers are modelled as exact rationals: the script never relies
on IEEE-754 rounding (it only ever compares a `length` against `0`), so the
exact value is an adequate model of the parsed numeric literal. -/
inductive JSValue where
  | vNull
  | vBool (b : Bool)
  | vNum (q : ℚ)
  | vStr (s : String)
  | vArr (elems : List JSValue)
  | vObj (members : List (String × JSValue))

/-- JavaScript truthiness (`Boolean(v)`) for the values of `JSValue`:
`null`, `false`, `0` and `""` are falsy; every array and object is truthy.
(`NaN` and `undefined` do not occur as `JSValue`s; `undefined` is modelled as
`Option.none` at the use sites.) -/
def jsTruthy : JSValue → Bool
  | .vNull => false
  | .vBool b => b
  | .vNum q => decide (q ≠ 0)
  | .vStr s => decide (s ≠ "")
  | .vArr _ => true
  | .vObj _ => true

/-- Whitespace accepted by the JSON grammar (RFC 8259): space, tab, LF, CR. -/
def isJsonWs (c : Char) : Bool := c = ' ' || c = '\t' || c = '\n' || c = '\r'

/-- Drop leading JSON whitespace. -/
def jsonSkipWs : List Char → List Char
  | [] => []
  | c :: cs => if isJsonWs c then jsonSkipWs cs else c :: cs

/-- Numeric value of one hexadecimal digit (either case), as in `\uXXXX`. -/
def jsonHexVal (c : Char) : Option Nat :=
  if '0' ≤ c ∧ c ≤ '9' then some (c.toNat - 48)
  else if 'a' ≤ c ∧ c ≤ 'f' then some (c.toNat - 87)
  else if 'A' ≤ c ∧ c ≤ 'F' then some (c.toNat - 55)
  else none

/-- Parse the body of a JSON string literal (the part after the opening `"`),
returning the decoded characters and the input after the closing quote.
Implements the escapes of the JSON grammar. Surrogate `\uXXXX` code units
cannot be represented in a Lean `Char`; `Char.ofNat` maps them to `\0`, a
divergence confined to lone-surrogate escapes, which the repository never
stores. Recursion is structural on the input list. -/
def jsonStrBody : List Char → Option (List Char × List Char)
  | [] => none
  | c :: cs =>
    if c = '"' then some ([], cs)
    else if c = '\\' then
      match cs with
      | [] => none
      | e :: cs' =>
        if e = 'u' then
          match cs' with
          | h1 :: h2 :: h3 :: h4 :: cs'' =>
            match jsonHexVal h1, jsonHexVal h2, jsonHexVal h3, jsonHexVal h4 with
            | some a, some b, some x, some d =>
              match jsonStrBody cs'' with
              | some (body, rem) => some (Char.ofNat (((a * 16 + b) * 16 + x) * 16 + d) :: body, rem)
              | none => none
            | _, _, _, _ => none
          | _ => none
        else
          match
            (if e = '"' then some '"'
             else if e = '\\' then some '\\'
             else if e = '/' then some '/'
             else if e = 'b' then some (Char.ofNat 8)
             else if e = 'f' then some (Char.ofNat 12)
             else if e = 'n' then some '\n'
             else if e = 'r' then some (Char.ofNat 13)
             else if e = 't' then some '\t'
             else none) with
          | some d =>
            match jsonStrBody cs' with
            | some (body, rem) => some (d :: body, rem)
            | none => none
          | none => none
    else if c.toNat < 32 then none
    else
      match jsonStrBody cs with
      | some (body, rem) => some (c :: body, rem)
      | none => none

/-- Value of a list of decimal digit characters. -/
def decValue (ds : List Char) : Nat :=
  ds.foldl (fun a c => a * 10 + (c.toNat - 48)) 0

/-- Parse a JSON number literal (`-?(0|[1-9][0-9]*)(\.[0-9]+)?([eE][+-]?[0-9]+)?`)
into its exact rational value.  `JSON.parse` would round the value to the
nearest IEEE-754 double; the script never observes that rounding, so the exact
value models it. -/
def jsonNumLit (cs : List Char) : Option (ℚ × List Char) :=
  let (neg, cs1) : Bool × List Char := match cs with
    | '-' :: r => (true, r)
    | _ => (false, cs)
  let intPart : Option (ℚ × List Char) := match cs1 with
    | [] => none
    | c :: r =>
      if c = '0' then some (0, r)
      else if c.isDigit then
        let (ds, r1) := r.span Char.isDigit
        some ((decValue (c :: ds) : ℚ), r1)
      else none
  match intPart with
  | none => none
  | some (ip, r1) =>
    let fracPart : Option (ℚ × List Char) := match r1 with
      | '.' :: fr1 =>
        let (fds, r2) := fr1.span Char.isDigit
        if fds = [] then none
        else some ((decValue fds : ℚ) / ((10 : ℚ) ^ fds.length), r2)
      | _ => some (0, r1)
    match fracPart with
    | none => none
    | some (fr, r2) =>
      let expPart : Option (ℤ × List Char) := match r2 with
        | 'e' :: er | 'E' :: er =>
          let (es, er1) : Bool × List Char := match er with
            | '+' :: t => (false, t)
            | '-' :: t => (true, t)
            | _ => (false, er)
          let (eds, r3) := er1.span Char.isDigit
          if eds = [] then none
          else some (if es then -(decValue eds : ℤ) else (decValue eds : ℤ), r3)
        | _ => some (0, r2)
      match expPart with
      | none => none
      | some (ex, r3) =>
        let q : ℚ := (ip + fr) * (10 : ℚ) ^ ex
        some (if neg then -q else q, r3)

mutual
/-- Model of the JSON value grammar accepted by `JSON.parse`, over a fuel
counter; the fuel chosen by `jsonParse` (twice the input length plus two)
dominates the recursion depth, which grows by at most two per consumed
character. -/
def jsonVal : Nat → List Char → Option (JSValue × List Char)
  | 0, _ => none
  | fuel + 1, cs =>
    match jsonSkipWs cs with
    | [] => none
    | c :: rest =>
      if c = '"' then
        match jsonStrBody rest with
        | some (body, rem) => some (.vStr ⟨body⟩, rem)
        | none => none
      else if c = '[' then
        match jsonSkipWs rest with
        | ']' :: rem => some (.vArr [], rem)
        | rest' =>
          match jsonElems fuel rest' with
          | some (es, rem) => some (.vArr es, rem)
          | none => none
      else if c = Char.ofNat 123 then
        match jsonSkipWs rest with
        | rem0 =>
          match rem0 with
          | d :: rem =>
            if d = Char.ofNat 125 then some (.vObj [], rem)
            else
              match jsonMembers fuel rem0 with
              | some (ms, rem1) => some (.vObj ms, rem1)
              | none => none
          | [] => none
      else if c = 't' then
        match rest with
        | 'r' :: 'u' :: 'e' :: rem => some (.vBool true, rem)
        | _ => none
      else if c = 'f' then
        match rest with
        | 'a' :: 'l' :: 's' :: 'e' :: rem => some (.vBool false, rem)
        | _ => none
      else if c = 'n' then
        match rest with
        | 'u' :: 'l' :: 'l' :: rem => some (.vNull, rem)
        | _ => none
      else
        match jsonNumLit (c :: rest) with
        | some (q, rem) => some (.vNum q, rem)
        | none => none

/-- One or more comma-separated array elements followed by `]`. -/
def jsonElems : Nat → List Char → Option (List JSValue × List Char)
  | 0, _ => none
  | fuel + 1, cs =>
    match jsonVal fuel cs with
    | none => none
    | some (v, rest) =>
      match jsonSkipWs rest with
      | ',' :: r =>
        match jsonElems fuel r with
        | some (vs, rem) => some (v :: vs, rem)
        | none => none
      | ']' :: r => some ([v], r)
      | _ => none

/-- One or more comma-separated object members followed by `}`. -/
def jsonMembers : Nat → List Char → Option (List (String × JSValue) × List Char)
  | 0, _ => none
  | fuel + 1, cs =>
    match jsonSkipWs cs with
    | '"' :: rest =>
      match jsonStrBody rest with
      | none => none
      | some (key, r1) =>
        match jsonSkipWs r1 with
        | ':' :: r2 =>
          match jsonVal fuel r2 with
          | none => none
          | some (v, r3) =>
            match jsonSkipWs r3 with
            | ',' :: r4 =>
              match jsonMembers fuel r4 with
              | some (ms, rem) => some ((⟨key⟩, v) :: ms, rem)
              | none => none
            | d :: r4 =>
              if d = Char.ofNat 125 then some ([(⟨key⟩, v)], r4)
              else none
            | _ => none
        | _ => none
    | _ => none
end

/-- Model of the host primitive `JSON.parse`: parse the whole input (leading
and trailing whitespace allowed), failing with an exception (`Except.error`)
on malformed content exactly where `JSON.parse` throws a `SyntaxError`. -/
def jsonParse (s : String) : Except Unit JSValue :=
  match jsonVal (2 * s.length + 2) s.data with
  | some (v, rest) => if jsonSkipWs rest = [] then .ok v else .error ()
  | none => .error ()

/-- Lowercase hexadecimal digit character, as emitted by `JSON.stringify` in
`\u00XX` escapes. -/
def hexDigitChar (n : Nat) : Char :=
  if n < 10 then Char.ofNat (48 + n) else Char.ofNat (87 + n)

/-- The escape `JSON.stringify` applies to one character of a string value:
`"` and `\` are backslash-escaped, the five named control escapes are used
where they exist, every other control character becomes `\u00XX`, and all
other characters are emitted verbatim. -/
def jsonEscapeChar (c : Char) : List Char :=
  if c = '"' then ['\\', '"']
  else if c = '\\' then ['\\', '\\']
  else if c = Char.ofNat 8 then ['\\', 'b']
  else if c = '\t' then ['\\', 't']
  else if c = '\n' then ['\\', 'n']
  else if c = Char.ofNat 12 then ['\\', 'f']
  else if c = Char.ofNat 13 then ['\\', 'r']
  else if c.toNat < 32 then
    ['\\', 'u', '0', '0', hexDigitChar (c.toNat / 16), hexDigitChar (c.toNat % 16)]
  else [c]

/-- The characters of the JSON string literal for `s`. -/
def jsonStrLit (s : String) : List Char :=
  '"' :: s.data.flatMap jsonEscapeChar ++ ['"']

/-- The comma-separated element list of a stringified array of strings. -/
def jsonElemsChars : List String → List Char
  | [] => []
  | [s] => jsonStrLit s
  | s :: rest => jsonStrLit s ++ ',' :: jsonElemsChars rest

/-- Model of `JSON.stringify` as the script applies it (line 257): the only
value the script ever serializes is `searchHistory`, an array of strings, so
the model covers exactly that shape. -/
def stringifyStringArray (h : List String) : String :=
  ⟨'[' :: jsonElemsChars h ++ [']']⟩

/-- The per-origin key-value string store (`localStorage`): a partial map from
keys to stored strings. -/
def Storage := String → Option String

/-- `localStorage.getItem`: `none` models the JavaScript `null` result. -/
def getItem (st : Storage) (k : String) : Option String := st k

/-- `localStorage.setItem`. -/
def setItem (st : Storage) (k v : String) : Storage :=
  fun k2 => if k2 = k then some v else st k2

/-- The fixed storage key of the search history (lines 12 and 257). -/
def dictionaryHistoryKey : String := "dictionaryHistory"

/-- Line 12: `JSON.parse(localStorage.getItem('dictionaryHistory')) || []`.
When the key is absent `getItem` yields `null`, which `JSON.parse` coerces to
the string `"null"` and parses to the (falsy) value `null`.  There is no
`try`/`catch` around this statement: a parse exception propagates and the
script fails to initialize, which the `Except.error` result models. -/
def loadHistory (stored : Option String) : Except Unit JSValue :=
  match jsonParse (stored.getD "null") with
  | .ok v => .ok (if jsTruthy v then v else .vArr [])
  | .error e => .error e

/-- The startup load, read from storage under the fixed key (line 12). -/
def loadHistoryFromStorage (st : Storage) : Except Unit JSValue :=
  loadHistory (getItem st dictionaryHistoryKey)

/-- Line 257: the history is persisted under the fixed key as serialized JSON
after every mutation. -/
def persistHistory (st : Storage) (h : List String) : Storage :=
  setItem st dictionaryHistoryKey (stringifyStringArray h)

/-- `addToSearchHistory` (lines 244-261): remove every occurrence of `word`
(`filter(item => item !== word)`), insert `word` at the front (`unshift`),
and if the length now exceeds 5 remove the last entry (a single `pop`).
The `localStorage.setItem` and display-refresh side effects are modelled by
`persistHistory` and are not part of the in-memory list returned here. -/
def addToSearchHistory (word : String) (history : List String) : List String :=
  let filtered := history.filter (fun item => item ≠ word)
  let unshifted := word :: filtered
  if unshifted.length > 5 then unshifted.dropLast else unshifted

/-- A sequence of `addToSearchHistory` calls starting from the empty history. -/
def recordAll (ws : List String) : List String :=
  ws.foldl (fun h w => addToSearchHistory w h) []

/-- The whitespace set of JavaScript's `String.prototype.trim` (ECMA-262
*TrimString*): WhiteSpace (tab, VT, FF, space, NBSP, ZWNBSP and the Unicode
space separators) plus the line terminators LF, CR, LS, PS. -/
def isJsWhitespace (c : Char) : Bool :=
  let n := c.toNat
  (9 ≤ n && n ≤ 13) || n = 32 || n = 160 || n = 5760 ||
    (8192 ≤ n && n ≤ 8202) || n = 8232 || n = 8233 || n = 8239 || n = 8287 ||
    n = 12288 || n = 65279

/-- `String.prototype.trim`: drop leading and trailing JS whitespace. -/
def jsTrim (s : String) : String :=
  ⟨((s.data.dropWhile isJsWhitespace).reverse.dropWhile isJsWhitespace).reverse⟩

/-- `String.prototype.toLowerCase`, modelled on the ASCII range (`Char.toLower`);
the locale-independent Unicode mappings beyond ASCII are not modelled, and no
claim depends on them (the only case-sensitive comparisons in the script are
against ASCII literals). -/
def jsToLowerCase (s : String) : String := ⟨s.data.map Char.toLower⟩

/-- The canonical decimal value of a string, if it is a canonical array-index
key ("0", "17", ... with no leading zero); property keys are compared by
their canonical numeric form in JavaScript array indexing. -/
def arrayIndexKey (k : String) : Option Nat :=
  let digitVal (cs : List Char) : Option Nat :=
    cs.foldl (fun acc c =>
      match acc with
      | some n => if c.isDigit then some (n * 10 + (c.toNat - 48)) else none
      | none => none) (some 0)
  match k.data with
  | [] => none
  | c :: rest =>
    if c = '0' then (if rest = [] then some 0 else none)
    else if c.isDigit then digitVal (c :: rest) else none

/-- Own-property lookup on an object's member list.  `JSON.parse` lets a later
duplicate key overwrite an earlier one, so the last occurrence wins. -/
def jsObjLookup (ms : List (String × JSValue)) (k : String) : Option JSValue :=
  List.lookup k ms.reverse

/-- Property read `v[k]` on a non-null value, as used by the script
(`undefined` is `none`).  Strings and arrays answer `length` and canonical
index keys; other `String.prototype` / `Array.prototype` members are not
modelled because the script never reads a key that collides with one (it reads
`word`, `phonetic`, `phonetics`, `meanings`, `partOfSpeech`, `definitions`,
`definition`, `example`, `audio`, `length` and `0`).  The throw on reading a
property of `null` or `undefined` is modelled at each call site. -/
def jsGet : JSValue → String → Option JSValue
  | .vNull, _ => none
  | .vBool _, _ => none
  | .vNum _, _ => none
  | .vStr s, k =>
    if k = "length" then some (.vNum s.length)
    else
      match arrayIndexKey k with
      | some n =>
        match s.data[n]? with
        | some c => some (.vStr ⟨[c]⟩)
        | none => none
      | none => none
  | .vArr xs, k =>
    if k = "length" then some (.vNum xs.length)
    else
      match arrayIndexKey k with
      | some n => xs[n]?
      | none => none
  | .vObj ms, k => jsObjLookup ms k

mutual
/-- JavaScript `String(v)` on the values the script interpolates into its
markup.  Array conversion is `Array.prototype.join(",")`, in which `null`
elements become the empty string.  A non-integral number would be rendered by
JS in its shortest decimal form; the model renders it as `num/den`, a
divergence confined to non-integral numbers, which no claim touches (the
script's own data never reaches this case). -/
def jsToString : JSValue → String
  | .vNull => "null"
  | .vBool b => if b then "true" else "false"
  | .vNum q => if q.den = 1 then toString q.num else toString q.num ++ "/" ++ toString q.den
  | .vStr s => s
  | .vArr xs => String.intercalate "," (jsArrElemStrings xs)
  | .vObj _ => "[object Object]"

/-- The element strings of `Array.prototype.join`: `null` joins as `""`. -/
def jsArrElemStrings : List JSValue → List String
  | [] => []
  | .vNull :: rest => "" :: jsArrElemStrings rest
  | v :: rest => jsToString v :: jsArrElemStrings rest
end

/-- `String(v)` where `v` may be `undefined` (`none`). -/
def jsToStringOpt : Option JSValue → String
  | none => "undefined"
  | some v => jsToString v

/-- JavaScript `ToNumber` on a string (`Number(s)` / numeric comparison
coercion): whitespace-trimmed, empty means `0`, otherwise a signed decimal
literal.  The `Infinity` spellings and the `0x`/`0o`/`0b` radix prefixes are
not modelled (treated as `NaN` = `none`); the script only ever coerces a
`length` property, which is never one of those. -/
def jsStrToNumber (s : String) : Option ℚ :=
  let t := (((s.data.dropWhile isJsWhitespace).reverse.dropWhile isJsWhitespace).reverse)
  if t = [] then some 0
  else
    let (neg, t1) : Bool × List Char := match t with
      | '-' :: r => (true, r)
      | '+' :: r => (false, r)
      | _ => (false, t)
    let (ids, t2) := t1.span Char.isDigit
    let (fds, t3) : List Char × List Char := match t2 with
      | '.' :: r => r.span Char.isDigit
      | _ => ([], t2)
    let (eds, t4) : Option ℤ × List Char := match t3 with
      | 'e' :: er | 'E' :: er =>
        let (es, er1) : Bool × List Char := match er with
          | '+' :: x => (false, x)
          | '-' :: x => (true, x)
          | _ => (false, er)
        let (ds, r) := er1.span Char.isDigit
        if ds = [] then (none, r)
        else (some (if es then -(decValue ds : ℤ) else (decValue ds : ℤ)), r)
      | _ => (some 0, t3)
    if ids = [] ∧ fds = [] then none
    else
      match eds with
      | none => none
      | some ex =>
        if t4 = [] then
          let q : ℚ := ((decValue ids : ℚ) + (decValue fds : ℚ) / (10 : ℚ) ^ fds.length)
            * (10 : ℚ) ^ ex
          some (if neg then -q else q)
        else none

/-- JavaScript `ToNumber`, as needed by the `>` comparison the script performs
on `length` properties.  Objects coerce through their string form
(`"[object Object]"` is `NaN`); arrays coerce through `join(",")`. -/
def jsToNumber : JSValue → Option ℚ
  | .vNull => some 0
  | .vBool b => some (if b then 1 else 0)
  | .vNum q => some q
  | .vStr s => jsStrToNumber s
  | .vArr xs => jsStrToNumber (String.intercalate "," (jsArrElemStrings xs))
  | .vObj _ => none

/-- The comparison `v > 0` applied to a possibly-undefined property value
(`undefined > 0` and `NaN > 0` are `false`). -/
def jsGtZero : Option JSValue → Bool
  | none => false
  | some v =>
    match jsToNumber v with
    | some q => decide (0 < q)
    | none => false

/-- The icon map object literal of `getPartOfSpeechIcon` (lines 160-169): its
own properties. -/
def iconMap : List (String × String) :=
  [("noun", "fas fa-landmark"),
   ("verb", "fas fa-running"),
   ("adjective", "fas fa-adjust"),
   ("adverb", "fas fa-bolt"),
   ("pronoun", "fas fa-user"),
   ("preposition", "fas fa-arrows-alt"),
   ("conjunction", "fas fa-link"),
   ("interjection", "fas fa-exclamation")]

/-- The property names an object literal inherits from `Object.prototype`.
`iconMap[pos]` on one of these yields the inherited member (a function, or
`Object.prototype` itself for `__proto__`), which is truthy, so the
`|| 'fas fa-font'` default is *not* taken for them. -/
def objectPrototypeKeys : List String :=
  ["constructor", "hasOwnProperty", "isPrototypeOf", "propertyIsEnumerable",
   "toLocaleString", "toString", "valueOf", "__proto__", "__defineGetter__",
   "__defineSetter__", "__lookupGetter__", "__lookupSetter__"]

/-- The value `getPartOfSpeechIcon` returns: either an icon class string, or a
truthy host value inherited from `Object.prototype` (never an icon). -/
inductive IconResult where
  | cls (s : String)
  | inherited (name : String)
  deriving DecidableEq

/-- `getPartOfSpeechIcon` (lines 159-172): `iconMap[pos] || 'fas fa-font'`.
An own property yields its icon string; a hit on an inherited
`Object.prototype` member yields that (truthy) member, so the default is
skipped; everything else is `undefined || 'fas fa-font'`. -/
def getPartOfSpeechIcon (pos : String) : IconResult :=
  match List.lookup pos iconMap with
  | some icon => .cls icon
  | none => if pos ∈ objectPrototypeKeys then .inherited pos else .cls "fas fa-font"

/-- The data `displayWordInfo` interpolates into the result markup
(lines 116-153): everything the rendered result view shows. -/
structure RenderedView where
  title : String
  phoneticText : String
  audioUrl : Option JSValue
  posIcon : IconResult
  posDisplay : String
  definitionText : String
  exampleAvailable : Bool
  exampleText : String

/-- `x || ''`: keep a truthy value, collapse a falsy or undefined one to `''`. -/
def jsOrEmptyString : Option JSValue → JSValue
  | some v => if jsTruthy v then v else .vStr ""
  | none => .vStr ""

/-- The `phonetics.find(p => p.audio)` scan (line 90): the first element whose
`audio` property is truthy.  Reading `p.audio` on a `null` element throws,
which only a crafted response could trigger. -/
def findAudioPhonetic : List JSValue → Except Unit (Option JSValue)
  | [] => .ok none
  | p :: rest =>
    match p with
    | .vNull => .error ()
    | _ =>
      if (match jsGet p "audio" with | some a => jsTruthy a | none => false) then
        .ok (some p)
      else findAudioPhonetic rest

/-- Lines 88-94: `if (phonetics && phonetics.length > 0)` then
`phonetics.find(p => p.audio)`; a truthy non-array with a positive `length`
has no callable `find`, so the call throws. On a found element the assigned
URL is `audioPhonetic.audio` (always truthy, by the `find` predicate). -/
def audioBlock (phonetics : Option JSValue) : Except Unit (Option JSValue) :=
  match phonetics with
  | none => .ok none
  | some pv =>
    if jsTruthy pv && jsGtZero (jsGet pv "length") then
      match pv with
      | .vArr elems =>
        match findAudioPhonetic elems with
        | .error e => .error e
        | .ok none => .ok none
        | .ok (some p) => .ok (jsGet p "audio")
      | _ => .error ()
    else .ok none

/-- Lines 96-110: extract `partOfSpeech`, `definition` and `example` (each
defaulted to `''` by `|| ''`) from `meanings[0]` and
`meanings[0].definitions[0]`.  Reading a property of an `undefined` or `null`
first element throws. -/
def meaningsBlock (meanings : Option JSValue) : Except Unit (JSValue × JSValue × JSValue) :=
  match meanings with
  | none => .ok (.vStr "", .vStr "", .vStr "")
  | some mv =>
    if jsTruthy mv && jsGtZero (jsGet mv "length") then
      match jsGet mv "0" with
      | none => .error ()
      | some .vNull => .error ()
      | some fm =>
        let pos := jsOrEmptyString (jsGet fm "partOfSpeech")
        match jsGet fm "definitions" with
        | some dv =>
          if jsTruthy dv && jsGtZero (jsGet dv "length") then
            match jsGet dv "0" with
            | none => .error ()
            | some .vNull => .error ()
            | some fd =>
              .ok (pos, jsOrEmptyString (jsGet fd "definition"),
                   jsOrEmptyString (jsGet fd "example"))
          else .ok (pos, .vStr "", .vStr "")
        | none => .ok (pos, .vStr "", .vStr "")
    else .ok (.vStr "", .vStr "", .vStr "")

/-- `charAt(0).toUpperCase() + slice(1)`, on the ASCII model of `toUpperCase`. -/
def jsCapitalize (s : String) : String :=
  match s.data with
  | [] => ""
  | c :: rest => ⟨Char.toUpper c :: rest⟩

/-- `displayWordInfo` (lines 81-156), as the view data it renders.
Destructuring `wordData` throws when it is `undefined` or `null`; the
`partOfSpeech ? partOfSpeech.charAt(0)...` interpolation throws when
`partOfSpeech` is a truthy non-string (no `charAt`); both are surfaced as
`Except.error` and reach the caller's `catch`. The icon is computed (line 113)
from the property key string of the `partOfSpeech` value. -/
def displayWordInfo (wordData : Option JSValue) : Except Unit RenderedView :=
  match wordData with
  | none => .error ()
  | some .vNull => .error ()
  | some wd =>
    let phoneticText :=
      match jsGet wd "phonetic" with
      | some v => if jsTruthy v then jsToString v else "Not available"
      | none => "Not available"
    match audioBlock (jsGet wd "phonetics") with
    | .error e => .error e
    | .ok audioUrl =>
      match meaningsBlock (jsGet wd "meanings") with
      | .error e => .error e
      | .ok (pos, defV, exV) =>
        let posIcon := getPartOfSpeechIcon (jsToString pos)
        match
          (if jsTruthy pos then
            match pos with
            | .vStr s => .ok (jsCapitalize s)
            | _ => .error ()
          else .ok "Not specified" : Except Unit String) with
        | .error e => .error e
        | .ok posDisplay =>
          .ok { title := jsToStringOpt (jsGet wd "word")
                phoneticText := phoneticText
                audioUrl := audioUrl
                posIcon := posIcon
                posDisplay := posDisplay
                definitionText :=
                  if jsTruthy defV then jsToString defV else "Definition not available"
                exampleAvailable := jsTruthy exV
                exampleText :=
                  if jsTruthy exV then "\"" ++ jsToString exV ++ "\""
                  else "Example not available" }

/-- The mutually-exclusive display modes of the result region. -/
inductive ViewState where
  | welcome
  | loading
  | result (view : RenderedView)
  | error (message : String)

/-- `response.ok` of the Fetch standard: status in the 2xx range. -/
def responseOk (status : Nat) : Bool := 200 ≤ status && status < 300

/-- The resolution of the one `fetch` a search issues: either a settled
response (status and raw body text) or a network-level failure (the promise
rejects). -/
inductive FetchOutcome where
  | response (status : Nat) (body : String)
  | networkFailure

/-- What one `performSearch` run leaves behind: the final view, the resulting
in-memory history, and the word requested over the network (`none` when no
request was issued). -/
structure SearchOutcome where
  view : ViewState
  history : List String
  requested : Option String

/-- `performSearch` (lines 38-78).  The input is trimmed and lowercased; an
empty result short-circuits to the error view without any request.  Otherwise
the outcome of the single `fetch` is interpreted: non-2xx status throws
(`'Word not found'` for 404, `'API request failed'` otherwise), the body is
parsed as JSON, `data[0]` is rendered, and only then is the word recorded in
the history.  Every exception lands in the `catch`, which distinguishes only
the `'Word not found'` message; all other failures (request failure, JSON
parse failure, renderer throw) show the generic message.  The transient
Loading view is not part of the final outcome. -/
def performSearch (input : String) (fetch : FetchOutcome) (history : List String) :
    SearchOutcome :=
  let word := jsToLowerCase (jsTrim input)
  if word = "" then
    { view := .error "Please enter a word to search.", history := history, requested := none }
  else
    match fetch with
    | .networkFailure =>
      { view := .error "Something went wrong. Please try again later."
        history := history, requested := some word }
    | .response status body =>
      if responseOk status = false then
        if status = 404 then
          { view := .error ("\"" ++ word ++ "\" not found. Please try another word.")
            history := history, requested := some word }
        else
          { view := .error "Something went wrong. Please try again later."
            history := history, requested := some word }
      else
        match jsonParse body with
        | .error _ =>
          { view := .error "Something went wrong. Please try again later."
            history := history, requested := some word }
        | .ok data =>
          match
            (match data with
             | .vNull => .error ()
             | v => displayWordInfo (jsGet v "0") : Except Unit RenderedView) with
          | .error _ =>
            { view := .error "Something went wrong. Please try again later."
              history := history, requested := some word }
          | .ok rendered =>
            { view := .result rendered
              history := addToSearchHistory word history, requested := some word }

/-- One definition of a meaning, as consumed by the renderer (§3 of the data
model): the definition text and an optional example. -/
structure DictDefinition where
  definition : String
  exampleText : Option String

/-- One meaning: a part-of-speech tag and its ordered definitions. -/
structure DictMeaning where
  partOfSpeech : String
  definitions : List DictDefinition

/-- A dictionary entry, the first element of the API response array.  The
`phonetics` field keeps only what the renderer reads: each element's optional
`audio` string. -/
structure DictionaryEntry where
  word : String
  phonetic : Option String
  phonetics : List (Option String)
  meanings : List DictMeaning

/-- The JSON object for one `phonetics` element: `{audio: a}` or `{}`. -/
def encodePhonetic : Option String → JSValue
  | some a => .vObj [("audio", .vStr a)]
  | none => .vObj []

/-- The JSON object for one definition; an absent example omits the key. -/
def encodeDefinition (d : DictDefinition) : JSValue :=
  .vObj ([("definition", .vStr d.definition)] ++
    (match d.exampleText with
     | some e => [("example", .vStr e)]
     | none => []))

/-- The JSON object for one meaning. -/
def encodeMeaning (m : DictMeaning) : JSValue :=
  .vObj [("partOfSpeech", .vStr m.partOfSpeech),
         ("definitions", .vArr (m.definitions.map encodeDefinition))]

/-- The JSON object for a whole entry; an absent `phonetic` omits the key. -/
def encodeEntry (e : DictionaryEntry) : JSValue :=
  .vObj ([("word", .vStr e.word)] ++
    (match e.phonetic with
     | some p => [("phonetic", .vStr p)]
     | none => []) ++
    [("phonetics", .vArr (e.phonetics.map encodePhonetic)),
     ("meanings", .vArr (e.meanings.map encodeMeaning))])

/-- `meanings[0].partOfSpeech`, or `''` when `meanings` is empty. -/
def firstPartOfSpeech : List DictMeaning → String
  | [] => ""
  | m :: _ => m.partOfSpeech

/-- `meanings[0].definitions[0].definition`, or `''` when either sequence is
empty. -/
def firstDefinitionText : List DictMeaning → String
  | [] => ""
  | m :: _ =>
    match m.definitions with
    | [] => ""
    | d :: _ => d.definition

/-- `meanings[0].definitions[0].example`, or `''` when absent or when either
sequence is empty. -/
def firstExampleText : List DictMeaning → String
  | [] => ""
  | m :: _ =>
    match m.definitions with
    | [] => ""
    | d :: _ => d.exampleText.getD ""

/-- The part of speech the view derives from an entry. -/
def entryPartOfSpeech (e : DictionaryEntry) : String := firstPartOfSpeech e.meanings

/-- The definition text the view derives from an entry. -/
def entryDefinition (e : DictionaryEntry) : String := firstDefinitionText e.meanings

/-- The example text the view derives from an entry. -/
def entryExample (e : DictionaryEntry) : String := firstExampleText e.meanings

/-- The first truthy audio URL among an entry's phonetics, as a JS value. -/
def entryAudio : List (Option String) → Option JSValue
  | [] => none
  | some a :: rest => if a = "" then entryAudio rest else some (.vStr a)
  | none :: rest => entryAudio rest

/-- The view an entry renders to, stated from the spec's contract for the
Result Renderer (amended where the code's truthiness checks also collapse
empty strings to the placeholders). -/
def expectedView (e : DictionaryEntry) : RenderedView :=
  { title := e.word
    phoneticText :=
      match e.phonetic with
      | some p => if p = "" then "Not available" else p
      | none => "Not available"
    audioUrl := entryAudio e.phonetics
    posIcon := getPartOfSpeechIcon (entryPartOfSpeech e)
    posDisplay :=
      if entryPartOfSpeech e = "" then "Not specified" else jsCapitalize (entryPartOfSpeech e)
    definitionText :=
      if entryDefinition e = "" then "Definition not available" else entryDefinition e
    exampleAvailable := decide (entryExample e ≠ "")
    exampleText :=
      if entryExample e = "" then "Example not available"
      else "\"" ++ entryExample e ++ "\"" }

/-! ## Theorems -/

/-- Unfolding of `addToSearchHistory`. -/
theorem addToSearchHistory_eq (w : String) (h : List String) :
    addToSearchHistory w h =
      if (h.filter (fun i => i ≠ w)).length + 1 > 5
      then (w :: h.filter (fun i => i ≠ w)).dropLast
      else w :: h.filter (fun i => i ≠ w) := rfl

/-- The filtered history never contains the word being recorded. -/
theorem not_mem_filter_ne (h : List String) (w : String) :
    w ∉ h.filter (fun i => i ≠ w) := by
  simp [List.mem_filter]

/-- Recording a word not yet in the history only prepends (and possibly pops). -/
theorem addToSearchHistory_of_not_mem {w : String} {h : List String} (hw : w ∉ h) :
    addToSearchHistory w h = if h.length + 1 > 5 then (w :: h).dropLast else w :: h := by
  have hf : h.filter (fun i => i ≠ w) = h :=
    List.filter_eq_self.mpr (fun a ha => by
      simp only [decide_eq_true_eq]
      exact fun haw => hw (haw ▸ ha))
  rw [addToSearchHistory_eq, hf]

/-- One record step keeps the length bound. -/
theorem addToSearchHistory_length_le (w : String) (h : List String)
    (hb : h.length ≤ 5) : (addToSearchHistory w h).length ≤ 5 := by
  rw [addToSearchHistory_eq]
  have hfl : (h.filter (fun i => i ≠ w)).length ≤ 5 :=
    le_trans (List.length_filter_le _ _) hb
  split
  · simp only [List.length_dropLast, List.length_cons]
    omega
  · simp only [List.length_cons]
    omega

/-- C2: for every history state and word, `addToSearchHistory` removes every
existing occurrence of the word and inserts it at the front: the result holds
the word exactly once, at index 0, and (given the data-model invariant that
the stored history is duplicate-free) has no duplicates; recording "x", "y",
"x" from empty yields exactly ["x", "y"]. -/
theorem record_moves_word_to_front (h : List String) (w : String) :
    (addToSearchHistory w h).head? = some w ∧
    (addToSearchHistory w h).count w = 1 ∧
    (h.Nodup → (addToSearchHistory w h).Nodup) ∧
    addToSearchHistory "x" (addToSearchHistory "y" (addToSearchHistory "x" [])) = ["x", "y"] := by
  set f := h.filter (fun i => i ≠ w) with hf
  have hwf : w ∉ f := not_mem_filter_ne h w
  have hcf : f.count w = 0 := List.count_eq_zero.mpr hwf
  rw [addToSearchHistory_eq, ← hf]
  refine ⟨?_, ?_, ?_, by decide⟩
  · split
    · next hlen =>
      have hfne : f ≠ [] := by
        intro hnil
        rw [hnil] at hlen
        simp at hlen
      rw [List.dropLast_cons_of_ne_nil hfne]
      rfl
    · rfl
  · split
    · next hlen =>
      have hfne : f ≠ [] := by
        intro hnil
        rw [hnil] at hlen
        simp at hlen
      rw [List.dropLast_cons_of_ne_nil hfne]
      have : f.dropLast.count w = 0 :=
        Nat.le_zero.mp (hcf ▸ (List.dropLast_sublist f).count_le w)
      simp [List.count_cons, this]
    · simp [List.count_cons, hcf]
  · intro hnd
    have hfnd : (w :: f).Nodup := by
      rw [List.nodup_cons]
      exact ⟨hwf, hnd.filter _⟩
    split
    · exact (List.dropLast_sublist (w :: f)).nodup hfnd
    · exact hfnd

/-- Witness for C2 at a concrete history with a duplicate-free state. -/
theorem record_moves_word_to_front_witness :
    (addToSearchHistory "c" ["a", "c", "b"]).head? = some "c" ∧
    (addToSearchHistory "c" ["a", "c", "b"]).count "c" = 1 ∧
    (addToSearchHistory "c" ["a", "c", "b"]).Nodup := by
  obtain ⟨h1, h2, h3, _⟩ := record_moves_word_to_front ["a", "c", "b"] "c"
  exact ⟨h1, h2, h3 (by decide)⟩

/-- A fresh word recorded into a history with room is simply prepended. -/
theorem record_fresh_small {w : String} {h : List String} (hw : w ∉ h)
    (hlen : h.length < 5) : addToSearchHistory w h = w :: h := by
  rw [addToSearchHistory_of_not_mem hw, if_neg]
  omega

/-- A fresh word recorded into a full history prepends and pops the last. -/
theorem record_fresh_full {w : String} {h : List String} (hw : w ∉ h)
    (hlen : h.length = 5) : addToSearchHistory w h = (w :: h).dropLast := by
  rw [addToSearchHistory_of_not_mem hw, if_pos]
  omega

/-- C3: from the empty history, no sequence of records ever pushes the length
past 5, and recording a 6th distinct word evicts the oldest entry, keeping the
other five most-recent-first. -/
theorem history_capacity_bound :
    (∀ ws : List String, (recordAll ws).length ≤ 5) ∧
    ∀ w1 w2 w3 w4 w5 w6 : String, [w1, w2, w3, w4, w5, w6].Nodup →
      recordAll [w1, w2, w3, w4, w5, w6] = [w6, w5, w4, w3, w2] := by
  constructor
  · intro ws
    have key : ∀ (l h : List String), h.length ≤ 5 →
        (l.foldl (fun acc w => addToSearchHistory w acc) h).length ≤ 5 := by
      intro l
      induction l with
      | nil => intro h hb; exact hb
      | cons w t ih =>
        intro h hb
        exact ih _ (addToSearchHistory_length_le w h hb)
    exact key ws [] (by decide)
  · intro w1 w2 w3 w4 w5 w6 hnd
    simp only [List.nodup_cons, List.mem_cons, List.not_mem_nil, or_false, not_or,
      List.nodup_nil, and_true] at hnd
    obtain ⟨⟨n12, n13, n14, n15, n16⟩, ⟨n23, n24, n25, n26⟩, ⟨n34, n35, n36⟩,
      ⟨n45, n46⟩, n56, -⟩ := hnd
    have s1 : addToSearchHistory w1 [] = [w1] :=
      record_fresh_small (List.not_mem_nil w1) (by simp)
    have s2 : addToSearchHistory w2 [w1] = [w2, w1] := by
      refine record_fresh_small ?_ (by simp)
      simp only [List.mem_cons, List.not_mem_nil, or_false, not_or]
      exact Ne.symm n12
    have s3 : addToSearchHistory w3 [w2, w1] = [w3, w2, w1] := by
      refine record_fresh_small ?_ (by simp)
      simp only [List.mem_cons, List.not_mem_nil, or_false, not_or]
      exact ⟨Ne.symm n23, Ne.symm n13⟩
    have s4 : addToSearchHistory w4 [w3, w2, w1] = [w4, w3, w2, w1] := by
      refine record_fresh_small ?_ (by simp)
      simp only [List.mem_cons, List.not_mem_nil, or_false, not_or]
      exact ⟨Ne.symm n34, Ne.symm n24, Ne.symm n14⟩
    have s5 : addToSearchHistory w5 [w4, w3, w2, w1] = [w5, w4, w3, w2, w1] := by
      refine record_fresh_small ?_ (by simp)
      simp only [List.mem_cons, List.not_mem_nil, or_false, not_or]
      exact ⟨Ne.symm n45, Ne.symm n35, Ne.symm n25, Ne.symm n15⟩
    have s6 : addToSearchHistory w6 [w5, w4, w3, w2, w1] = [w6, w5, w4, w3, w2] := by
      have : addToSearchHistory w6 [w5, w4, w3, w2, w1]
          = (w6 :: [w5, w4, w3, w2, w1]).dropLast := by
        refine record_fresh_full ?_ (by simp)
        simp only [List.mem_cons, List.not_mem_nil, or_false, not_or]
        exact ⟨Ne.symm n56, Ne.symm n46, Ne.symm n36, Ne.symm n26, Ne.symm n16⟩
      rw [this]
      rfl
    simp only [recordAll, List.foldl, s1, s2, s3, s4, s5, s6]

/-- Witness for C3 at six concrete distinct words. -/
theorem history_capacity_bound_witness :
    (recordAll ["a", "b", "c", "d", "e", "f"]).length ≤ 5 ∧
    recordAll ["a", "b", "c", "d", "e", "f"] = ["f", "e", "d", "c", "b"] :=
  ⟨history_capacity_bound.1 ["a", "b", "c", "d", "e", "f"],
   history_capacity_bound.2 "a" "b" "c" "d" "e" "f" (by decide)⟩

/-- Filtering one word out of a list removes at most `count` occurrences. -/
theorem length_filter_ne_ge (h : List String) (w : String) :
    h.length ≤ (h.filter (fun i => i ≠ w)).length + h.count w := by
  induction h with
  | nil => simp
  | cons a t ih =>
    by_cases haw : a = w
    · subst haw
      simp only [List.filter_cons, List.count_cons] at ih ⊢
      simp at ih ⊢
      omega
    · simp only [List.filter_cons, List.count_cons] at ih ⊢
      simp [haw] at ih ⊢
      omega

/-- C10: one record call pops at most a single element, so it grows the length
by at most one; consequently (under the duplicate-free history invariant) it
can restore the 5-entry bound only from a state of length at most 6, and from
an over-long loaded history (length above 5) recording a new word leaves the
length unchanged, still above the bound. -/
theorem record_truncation_single_pop (h : List String) (w : String) :
    (addToSearchHistory w h).length ≤ h.length + 1 ∧
    (h.Nodup → (addToSearchHistory w h).length ≤ 5 → h.length ≤ 6) ∧
    (5 < h.length → w ∉ h → (addToSearchHistory w h).length = h.length) := by
  refine ⟨?_, ?_, ?_⟩
  · rw [addToSearchHistory_eq]
    have hfl : (h.filter (fun i => i ≠ w)).length ≤ h.length :=
      List.length_filter_le _ _
    split
    · simp only [List.length_dropLast, List.length_cons]
      omega
    · simp only [List.length_cons]
      omega
  · intro hnd hle
    have hc1 : h.count w ≤ 1 := List.nodup_iff_count_le_one.mp hnd w
    have hfl := length_filter_ne_ge h w
    rw [addToSearchHistory_eq] at hle
    revert hle
    split
    · simp only [List.length_dropLast, List.length_cons]
      omega
    · simp only [List.length_cons]
      omega
  · intro hlen hw
    rw [addToSearchHistory_of_not_mem hw, if_pos (by omega)]
    simp only [List.length_dropLast, List.length_cons]
    omega

/-- Witness for C10 at a 6-entry loaded history and a fresh word. -/
theorem record_truncation_single_pop_witness :
    (addToSearchHistory "g" ["a", "b", "c", "d", "e", "f"]).length
      = (["a", "b", "c", "d", "e", "f"] : List String).length :=
  (record_truncation_single_pop ["a", "b", "c", "d", "e", "f"] "g").2.2
    (by decide) (by decide)

/-- C4: an input that is empty after trimming issues no network request,
leaves the history untouched, and goes straight to the error view with the
exact message "Please enter a word to search." (lowercasing the empty trimmed
input leaves it empty, so the guard fires for any fetch outcome). -/
theorem performSearch_empty_input (input : String) (fetch : FetchOutcome)
    (history : List String) (h : jsTrim input = "") :
    performSearch input fetch history =
      { view := .error "Please enter a word to search.", history := history,
        requested := none } := by
  unfold performSearch
  rw [h]
  rfl

/-- Witness for C4 at a whitespace-only input. -/
theorem performSearch_empty_input_witness :
    performSearch "  " (.response 200 "[]") ["prior"] =
      { view := .error "Please enter a word to search.", history := ["prior"],
        requested := none } :=
  performSearch_empty_input "  " (.response 200 "[]") ["prior"] (by decide)

/-- C5: with a non-empty trimmed word, an HTTP 404 yields the error view with
exactly the word-specific not-found message, while any other non-success
status, a network-level failure, or a JSON parse failure of a successful
response body yields the error view with exactly the generic message. -/
theorem performSearch_failure_messages (input : String) (history : List String)
    (status : Nat) (body : String)
    (hw : jsToLowerCase (jsTrim input) ≠ "") :
    ((performSearch input (.response 404 body) history).view =
      .error ("\"" ++ jsToLowerCase (jsTrim input) ++ "\" not found. Please try another word.")) ∧
    (responseOk status = false → status ≠ 404 →
      (performSearch input (.response status body) history).view =
        .error "Something went wrong. Please try again later.") ∧
    ((performSearch input .networkFailure history).view =
      .error "Something went wrong. Please try again later.") ∧
    (responseOk status = true → jsonParse body = .error () →
      (performSearch input (.response status body) history).view =
        .error "Something went wrong. Please try again later.") := by
  refine ⟨?_, ?_, ?_, ?_⟩
  · unfold performSearch
    rw [if_neg hw]
    rfl
  · intro hok h404
    unfold performSearch
    rw [if_neg hw]
    simp only [hok, if_true, h404, if_false]
  · unfold performSearch
    rw [if_neg hw]
  · intro hok hparse
    unfold performSearch
    rw [if_neg hw]
    simp only [hok, hparse]
    rfl

/-- Witness for C5 at the word "hello" with statuses 404 and 500, a dropped
connection, and a body that is not JSON. -/
theorem performSearch_failure_messages_witness :
    ((performSearch "hello" (.response 404 "x") []).view =
      .error "\"hello\" not found. Please try another word.") ∧
    ((performSearch "hello" (.response 500 "x") []).view =
      .error "Something went wrong. Please try again later.") ∧
    ((performSearch "hello" .networkFailure []).view =
      .error "Something went wrong. Please try again later.") ∧
    ((performSearch "hello" (.response 200 "x") []).view =
      .error "Something went wrong. Please try again later.") := by
  obtain ⟨h404, hother, hnet, hparse⟩ :=
    performSearch_failure_messages "hello" [] 500 "x" (by decide)
  obtain ⟨-, -, -, hparse200⟩ :=
    performSearch_failure_messages "hello" [] 200 "x" (by decide)
  exact ⟨h404, hother (by decide) (by decide), hnet, hparse200 (by decide) rfl⟩

/-- C9: a successful response whose JSON body is the empty array renders
`data[0]` = `undefined`; destructuring it in `displayWordInfo` throws, the
`catch` shows the generic message, and the history is left unmodified. -/
theorem performSearch_empty_array (input : String) (history : List String)
    (status : Nat) (body : String)
    (hw : jsToLowerCase (jsTrim input) ≠ "")
    (hok : responseOk status = true)
    (hparse : jsonParse body = .ok (.vArr [])) :
    performSearch input (.response status body) history =
      { view := .error "Something went wrong. Please try again later.",
        history := history, requested := some (jsToLowerCase (jsTrim input)) } := by
  unfold performSearch
  rw [if_neg hw]
  simp only [hok, Bool.true_eq_false, if_false, hparse]
  rfl

/-- Witness for C9: searching "hello" against a 200 response with body `[]`. -/
theorem performSearch_empty_array_witness :
    performSearch "hello" (.response 200 "[]") ["prior"] =
      { view := .error "Something went wrong. Please try again later.",
        history := ["prior"], requested := some "hello" } :=
  performSearch_empty_array "hello" ["prior"] 200 "[]" (by decide) (by decide) rfl

/-- Counterexample to C6 as stated: the unrecognized string "constructor" does
not map to the default icon — the object-literal lookup `iconMap['constructor']`
finds the inherited, truthy `Object.prototype.constructor`, so the
`|| 'fas fa-font'` default is skipped and a non-icon host value is returned. -/
theorem getPartOfSpeechIcon_constructor_not_default :
    getPartOfSpeechIcon "constructor" = .inherited "constructor" ∧
    IconResult.inherited "constructor" ≠ IconResult.cls "fas fa-font" := by
  exact ⟨by decide, by decide⟩

/-- C6 (amended): the icon mapping is total and never throws; the eight known
parts of speech map to their own pairwise-distinct icons, and every other
string maps to the default generic-text icon — except the strings naming the
members an object literal inherits from `Object.prototype` (`constructor`,
`toString`, ...), which return that inherited truthy member instead of the
default. -/
theorem getPartOfSpeechIcon_total_mapping :
    (getPartOfSpeechIcon "noun" = .cls "fas fa-landmark" ∧
     getPartOfSpeechIcon "verb" = .cls "fas fa-running" ∧
     getPartOfSpeechIcon "adjective" = .cls "fas fa-adjust" ∧
     getPartOfSpeechIcon "adverb" = .cls "fas fa-bolt" ∧
     getPartOfSpeechIcon "pronoun" = .cls "fas fa-user" ∧
     getPartOfSpeechIcon "preposition" = .cls "fas fa-arrows-alt" ∧
     getPartOfSpeechIcon "conjunction" = .cls "fas fa-link" ∧
     getPartOfSpeechIcon "interjection" = .cls "fas fa-exclamation") ∧
    ["fas fa-landmark", "fas fa-running", "fas fa-adjust", "fas fa-bolt",
     "fas fa-user", "fas fa-arrows-alt", "fas fa-link", "fas fa-exclamation",
     "fas fa-font"].Nodup ∧
    ∀ pos : String,
      pos ∉ ["noun", "verb", "adjective", "adverb", "pronoun", "preposition",
             "conjunction", "interjection"] →
      pos ∉ objectPrototypeKeys →
      getPartOfSpeechIcon pos = .cls "fas fa-font" := by
  refine ⟨by decide, by decide, ?_⟩
  intro pos h8 hproto
  simp only [List.mem_cons, List.not_mem_nil, or_false, not_or] at h8
  obtain ⟨h1, h2, h3, h4, h5, h6, h7, h8'⟩ := h8
  have b1 : (pos == "noun") = false := beq_eq_false_iff_ne.mpr h1
  have b2 : (pos == "verb") = false := beq_eq_false_iff_ne.mpr h2
  have b3 : (pos == "adjective") = false := beq_eq_false_iff_ne.mpr h3
  have b4 : (pos == "adverb") = false := beq_eq_false_iff_ne.mpr h4
  have b5 : (pos == "pronoun") = false := beq_eq_false_iff_ne.mpr h5
  have b6 : (pos == "preposition") = false := beq_eq_false_iff_ne.mpr h6
  have b7 : (pos == "conjunction") = false := beq_eq_false_iff_ne.mpr h7
  have b8 : (pos == "interjection") = false := beq_eq_false_iff_ne.mpr h8'
  simp [getPartOfSpeechIcon, iconMap, List.lookup, b1, b2, b3, b4, b5, b6, b7, b8, hproto]

/-- Witness for C6 (amended) at an unrecognized part of speech. -/
theorem getPartOfSpeechIcon_total_mapping_witness :
    getPartOfSpeechIcon "exclamation" = .cls "fas fa-font" :=
  getPartOfSpeechIcon_total_mapping.2.2 "exclamation" (by decide) (by decide)

/-- Counterexample to C1 as stated: with the malformed stored value "x" under
the history key, the startup load of line 12 throws (there is no try/catch
around `JSON.parse`), so the script fails instead of initializing the
in-memory history to the empty sequence. -/
theorem loadHistory_malformed_fatal :
    loadHistoryFromStorage (setItem (fun _ => none) dictionaryHistoryKey "x") = .error () ∧
    (Except.error () : Except Unit JSValue) ≠ .ok (.vArr []) :=
  ⟨rfl, fun h => Except.noConfusion h⟩

/-- C1 (amended): when the stored value under the history key is absent the
in-memory history is initialized to the empty sequence and the load succeeds,
but when the stored content is malformed (rejected by `JSON.parse`) the parse
exception propagates uncaught and startup fails. -/
theorem loadHistory_absent_or_malformed :
    loadHistory none = .ok (.vArr []) ∧
    ∀ s : String, jsonParse s = .error () → loadHistory (some s) = .error () := by
  constructor
  · rfl
  · intro s hs
    unfold loadHistory
    simp only [Option.getD_some, hs]

/-- Witness for C1 (amended): the absent case and the malformed value "x". -/
theorem loadHistory_absent_or_malformed_witness :
    loadHistory none = .ok (.vArr []) ∧ loadHistory (some "x") = .error () :=
  ⟨loadHistory_absent_or_malformed.1, loadHistory_absent_or_malformed.2 "x" rfl⟩

/-- A hex digit emitted by `hexDigitChar` decodes to its value. -/
theorem jsonHexVal_hexDigitChar (n : Nat) (hn : n < 16) :
    jsonHexVal (hexDigitChar n) = some n := by
  interval_cases n <;> decide

/-- Skipping whitespace is the identity on input that starts elsewhere. -/
theorem jsonSkipWs_cons {c : Char} {cs : List Char} (hc : isJsonWs c = false) :
    jsonSkipWs (c :: cs) = c :: cs := by
  simp [jsonSkipWs, hc]

/-- Decoding one stringified character: the parser consumes the escape emitted
by `jsonEscapeChar` and conses the original character. -/
theorem jsonStrBody_escape (c : Char) (rest : List Char) :
    jsonStrBody (jsonEscapeChar c ++ rest) =
      match jsonStrBody rest with
      | some (body, rem) => some (c :: body, rem)
      | none => none := by
  by_cases h1 : c = '"'
  · subst h1; rw [jsonStrBody.eq_def]; simp [jsonEscapeChar]
  by_cases h2 : c = '\\'
  · subst h2; rw [jsonStrBody.eq_def]; simp [jsonEscapeChar]
  by_cases h3 : c = Char.ofNat 8
  · subst h3; rw [jsonStrBody.eq_def]; simp [jsonEscapeChar]
  by_cases h4 : c = '\t'
  · subst h4; rw [jsonStrBody.eq_def]; simp [jsonEscapeChar]
  by_cases h5 : c = '\n'
  · subst h5; rw [jsonStrBody.eq_def]; simp [jsonEscapeChar]
  by_cases h6 : c = Char.ofNat 12
  · subst h6; rw [jsonStrBody.eq_def]; simp [jsonEscapeChar]
  by_cases h7 : c = Char.ofNat 13
  · subst h7; rw [jsonStrBody.eq_def]; simp [jsonEscapeChar]
  by_cases h8 : c.toNat < 32
  · have hhi : c.toNat / 16 < 16 := by omega
    have hlo : c.toNat % 16 < 16 := Nat.mod_lt _ (by omega)
    have hesc : jsonEscapeChar c =
        ['\\', 'u', '0', '0', hexDigitChar (c.toNat / 16), hexDigitChar (c.toNat % 16)] := by
      simp only [jsonEscapeChar, if_neg h1, if_neg h2, if_neg h3, if_neg h4, if_neg h5,
        if_neg h6, if_neg h7, if_pos h8]
    have harith : ((0 * 16 + 0) * 16 + c.toNat / 16) * 16 + c.toNat % 16 = c.toNat := by
      omega
    rw [hesc, jsonStrBody.eq_def]
    simp only [List.cons_append]
    simp only [reduceIte, reduceCtorEq]
    have h00 : jsonHexVal '0' = some 0 := by decide
    simp [h00, jsonHexVal_hexDigitChar _ hhi, jsonHexVal_hexDigitChar _ hlo, harith]
    have hdm : c.toNat / 16 * 16 + c.toNat % 16 = c.toNat := by omega
    rw [hdm, Char.ofNat_toNat]
  · simp only [jsonEscapeChar, if_neg h1, if_neg h2, if_neg h3, if_neg h4, if_neg h5,
      if_neg h6, if_neg h7, if_neg h8, List.singleton_append]
    rw [jsonStrBody.eq_def]
    simp [h1, h2, h8]

/-- Parsing an escaped character run recovers it and stops at the closing
quote. -/
theorem jsonStrBody_flatMap (l : List Char) (rest : List Char) :
    jsonStrBody (l.flatMap jsonEscapeChar ++ '"' :: rest) = some (l, rest) := by
  induction l with
  | nil =>
    rw [jsonStrBody.eq_def]
    simp
  | cons c t ih =>
    rw [List.flatMap_cons, List.append_assoc, jsonStrBody_escape, ih]

/-- A stringified string literal parses back to the string it came from. -/
theorem jsonVal_strLit (s : String) (tail : List Char) (f : Nat) (hf : 1 ≤ f) :
    jsonVal f (jsonStrLit s ++ tail) = some (.vStr s, tail) := by
  obtain ⟨f', rfl⟩ : ∃ f', f = f' + 1 := ⟨f - 1, by omega⟩
  have harg : jsonStrLit s ++ tail = '"' :: (s.data.flatMap jsonEscapeChar ++ '"' :: tail) := by
    simp [jsonStrLit]
  rw [harg, jsonVal]
  rw [jsonSkipWs_cons (by decide)]
  simp only [reduceIte]
  rw [jsonStrBody_flatMap]

/-- Parsing the stringified element list of a non-empty string array recovers
the elements, for any fuel above the element count. -/
theorem jsonElems_elemsChars (h : List String) :
    ∀ (fuel : Nat) (rest : List Char), h ≠ [] → h.length + 1 ≤ fuel →
      jsonElems fuel (jsonElemsChars h ++ ']' :: rest) =
        some (h.map JSValue.vStr, rest) := by
  induction h with
  | nil => intro fuel rest hne; exact absurd rfl hne
  | cons s t ih =>
    intro fuel rest _ hfuel
    obtain ⟨f, rfl⟩ : ∃ f, fuel = f + 1 := ⟨fuel - 1, by omega⟩
    match t with
    | [] =>
      rw [jsonElems]
      have harg : jsonElemsChars [s] ++ ']' :: rest = jsonStrLit s ++ ']' :: rest := rfl
      rw [harg, jsonVal_strLit s (']' :: rest) f (by simp at hfuel; omega)]
      simp [jsonSkipWs, isJsonWs]
    | s2 :: t2 =>
      rw [jsonElems]
      have harg : jsonElemsChars (s :: s2 :: t2) ++ ']' :: rest
          = jsonStrLit s ++ ',' :: (jsonElemsChars (s2 :: t2) ++ ']' :: rest) := by
        simp [jsonElemsChars]
      rw [harg, jsonVal_strLit s _ f (by simp at hfuel; omega)]
      have hrec := ih f rest (List.cons_ne_nil s2 t2) (by simp at hfuel ⊢; omega)
      simp [jsonSkipWs, isJsonWs, hrec]

/-- The element characters are at least as many as the elements. -/
theorem jsonElemsChars_length_ge (h : List String) :
    h.length ≤ (jsonElemsChars h).length := by
  induction h with
  | nil => simp [jsonElemsChars]
  | cons s t ih =>
    cases t with
    | nil =>
      have e : jsonElemsChars [s] = jsonStrLit s := rfl
      rw [e]
      simp [jsonStrLit]
    | cons s2 t2 =>
      have e : jsonElemsChars (s :: s2 :: t2)
          = jsonStrLit s ++ ',' :: jsonElemsChars (s2 :: t2) := rfl
      rw [e]
      simp only [List.length_append, List.length_cons]
      have h2 : 2 ≤ (jsonStrLit s).length := by simp [jsonStrLit]
      simp only [List.length_cons] at ih
      omega

/-- A non-empty stringified element list starts with a quote. -/
theorem jsonElemsChars_cons_head (s : String) (t : List String) :
    ∃ cs, jsonElemsChars (s :: t) = '"' :: cs := by
  cases t with
  | nil => exact ⟨s.data.flatMap jsonEscapeChar ++ ['"'], rfl⟩
  | cons s2 t2 =>
    exact ⟨(s.data.flatMap jsonEscapeChar ++ ['"']) ++ ',' :: jsonElemsChars (s2 :: t2),
      by simp [jsonElemsChars, jsonStrLit]⟩

/-- Parsing a stringified string array recovers the array, for any fuel above
the element count plus one. -/
theorem jsonVal_stringArray (h : List String) (f : Nat) (hf : h.length + 2 ≤ f)
    (rest : List Char) :
    jsonVal f ('[' :: (jsonElemsChars h ++ ']' :: rest)) =
      some (.vArr (h.map JSValue.vStr), rest) := by
  obtain ⟨f', rfl⟩ : ∃ f', f = f' + 1 := ⟨f - 1, by omega⟩
  cases h with
  | nil =>
    rw [jsonVal, jsonSkipWs_cons (by decide)]
    simp [jsonElemsChars, jsonSkipWs, isJsonWs]
  | cons s t =>
    obtain ⟨cs, hcs⟩ := jsonElemsChars_cons_head s t
    have harg : jsonElemsChars (s :: t) ++ ']' :: rest = '"' :: (cs ++ ']' :: rest) := by
      rw [hcs, List.cons_append]
    rw [harg, jsonVal, jsonSkipWs_cons (by decide)]
    have hskip : jsonSkipWs ('"' :: (cs ++ ']' :: rest)) = '"' :: (cs ++ ']' :: rest) :=
      jsonSkipWs_cons (by decide)
    have hrec := jsonElems_elemsChars (s :: t) f' rest (List.cons_ne_nil s t)
      (by simp only [List.length_cons] at hf ⊢; omega)
    rw [harg] at hrec
    simp [hskip, hrec]

/-- `JSON.parse` inverts `JSON.stringify` on the history array. -/
theorem jsonParse_stringify (h : List String) :
    jsonParse (stringifyStringArray h) = .ok (.vArr (h.map JSValue.vStr)) := by
  unfold jsonParse
  have hdata : (stringifyStringArray h).data = '[' :: (jsonElemsChars h ++ ']' :: []) := by
    simp [stringifyStringArray]
  have hlen : h.length + 2 ≤ 2 * (stringifyStringArray h).length + 2 := by
    have hge := jsonElemsChars_length_ge h
    have hsl : (stringifyStringArray h).length = (jsonElemsChars h).length + 2 := by
      simp [stringifyStringArray, String.length]
    omega
  rw [hdata, jsonVal_stringArray h _ hlen []]
  simp [jsonSkipWs]

/-- C8: persisting a history of up to five strings as serialized JSON under
the fixed storage key and loading it in a fresh session reproduces exactly the
same ordered sequence. -/
theorem persisted_history_round_trips (st : Storage) (h : List String)
    (_hb : h.length ≤ 5) :
    loadHistoryFromStorage (persistHistory st h) = .ok (.vArr (h.map JSValue.vStr)) := by
  unfold loadHistoryFromStorage persistHistory getItem setItem loadHistory
  rw [if_pos rfl]
  simp only [Option.getD_some]
  rw [jsonParse_stringify]
  rfl

/-- Witness for C8 at a two-word history over empty storage. -/
theorem persisted_history_round_trips_witness :
    loadHistoryFromStorage (persistHistory (fun _ => none) ["hello", "world"]) =
      .ok (.vArr [.vStr "hello", .vStr "world"]) :=
  persisted_history_round_trips (fun _ => none) ["hello", "world"] (by decide)

/-- `x || ''` on a string value is the string itself (an empty string is
falsy, and `''` is what the default supplies). -/
theorem jsOrEmptyString_vStr (s : String) :
    jsOrEmptyString (some (.vStr s)) = .vStr s := by
  unfold jsOrEmptyString
  by_cases h : s = ""
  · subst h; rfl
  · simp [jsTruthy, h]

/-- Reading `word` off an encoded entry. -/
theorem jsGet_encode_word (e : DictionaryEntry) :
    jsGet (encodeEntry e) "word" = some (.vStr e.word) := by
  cases hp : e.phonetic <;>
    simp [encodeEntry, jsGet, jsObjLookup, List.lookup, hp]

/-- Reading `phonetic` off an encoded entry: absent key means `undefined`. -/
theorem jsGet_encode_phonetic (e : DictionaryEntry) :
    jsGet (encodeEntry e) "phonetic" = e.phonetic.map JSValue.vStr := by
  cases hp : e.phonetic <;>
    simp [encodeEntry, jsGet, jsObjLookup, List.lookup, hp]

/-- Reading `phonetics` off an encoded entry. -/
theorem jsGet_encode_phonetics (e : DictionaryEntry) :
    jsGet (encodeEntry e) "phonetics" = some (.vArr (e.phonetics.map encodePhonetic)) := by
  cases hp : e.phonetic <;>
    simp [encodeEntry, jsGet, jsObjLookup, List.lookup, hp]

/-- Reading `meanings` off an encoded entry. -/
theorem jsGet_encode_meanings (e : DictionaryEntry) :
    jsGet (encodeEntry e) "meanings" = some (.vArr (e.meanings.map encodeMeaning)) := by
  cases hp : e.phonetic <;>
    simp [encodeEntry, jsGet, jsObjLookup, List.lookup, hp]

/-- The `find` scan over encoded phonetics finds exactly the element carrying
the first non-empty audio string. -/
theorem findAudioPhonetic_encode (l : List (Option String)) :
    findAudioPhonetic (l.map encodePhonetic) =
      .ok ((entryAudio l).map (fun v => JSValue.vObj [("audio", v)])) := by
  induction l with
  | nil => rfl
  | cons o t ih =>
    cases o with
    | none =>
      simpa [findAudioPhonetic, encodePhonetic, jsGet, jsObjLookup, entryAudio] using ih
    | some a =>
      by_cases ha : a = ""
      · subst ha
        simpa [findAudioPhonetic, encodePhonetic, jsGet, jsObjLookup, List.lookup,
          jsTruthy, entryAudio] using ih
      · simp [findAudioPhonetic, encodePhonetic, jsGet, jsObjLookup, List.lookup,
          jsTruthy, entryAudio, ha]

/-- The audio block on an encoded phonetics array yields the first non-empty
audio URL (and never throws). -/
theorem audioBlock_encode (l : List (Option String)) :
    audioBlock (some (.vArr (l.map encodePhonetic))) = .ok (entryAudio l) := by
  cases l with
  | nil => rfl
  | cons o t =>
    have hgt : jsGtZero (jsGet (.vArr ((o :: t).map encodePhonetic)) "length") = true := by
      simp [jsGet, jsGtZero, jsToNumber, Nat.cast_pos]
      positivity
    unfold audioBlock
    simp only [jsTruthy, hgt, Bool.and_self, if_true]
    rw [findAudioPhonetic_encode (o :: t)]
    cases entryAudio (o :: t) with
    | none => rfl
    | some v => simp [jsGet, jsObjLookup, List.lookup]

/-- `length > 0` holds on any non-empty array value. -/
theorem jsGtZero_arr_cons (x : JSValue) (xs : List JSValue) :
    jsGtZero (jsGet (.vArr (x :: xs)) "length") = true := by
  simp [jsGet, jsGtZero, jsToNumber, Nat.cast_pos]
  positivity

/-- Index 0 of a non-empty array value. -/
theorem jsGet_arr_zero (x : JSValue) (xs : List JSValue) :
    jsGet (.vArr (x :: xs)) "0" = some x := by
  have hk : arrayIndexKey "0" = some 0 := rfl
  simp [jsGet, hk]

/-- The meanings block on an encoded meanings array extracts the first
meaning's part of speech and the first definition's text and example, each
defaulting to the empty string (and never throws). -/
theorem meaningsBlock_encode (ms : List DictMeaning) :
    meaningsBlock (some (.vArr (ms.map encodeMeaning))) =
      .ok (.vStr (firstPartOfSpeech ms), .vStr (firstDefinitionText ms),
           .vStr (firstExampleText ms)) := by
  cases ms with
  | nil => rfl
  | cons m mt =>
    obtain ⟨posStr, defs⟩ := m
    have hk0 : arrayIndexKey "0" = some 0 := rfl
    have hposm : (0 : ℚ) < (mt.length : ℚ) + 1 := by positivity
    cases defs with
    | nil =>
      unfold meaningsBlock
      simp [List.map_cons, jsTruthy, hk0, hposm, encodeMeaning,
        jsGet, jsObjLookup, List.lookup, jsOrEmptyString_vStr, firstPartOfSpeech,
        firstDefinitionText, firstExampleText, jsGtZero, jsToNumber, jsStrToNumber]
    | cons d dt =>
      obtain ⟨defStr, exOpt⟩ := d
      have hposd : (0 : ℚ) < (dt.length : ℚ) + 1 := by positivity
      cases exOpt with
      | none =>
        unfold meaningsBlock
        simp [List.map_cons, jsTruthy, hk0, hposm, hposd, encodeMeaning,
          encodeDefinition, jsGet, jsObjLookup, List.lookup, jsOrEmptyString_vStr,
          jsOrEmptyString, firstPartOfSpeech, firstDefinitionText, firstExampleText,
          jsGtZero, jsToNumber]
        exact ⟨fun h => h.symm, fun h => h.symm⟩
      | some x =>
        unfold meaningsBlock
        simp [List.map_cons, jsTruthy, hk0, hposm, hposd, encodeMeaning,
          encodeDefinition, jsGet, jsObjLookup, List.lookup, jsOrEmptyString_vStr,
          firstPartOfSpeech, firstDefinitionText, firstExampleText,
          jsGtZero, jsToNumber]

/-- C7 (amended): rendering an encoded dictionary entry never throws and shows
exactly: the phonetic when present and non-empty, else "Not available"; the
capitalized part of speech when non-empty, else "Not specified"; the first
definition when both sequences are non-empty and the text itself non-empty,
else "Definition not available"; and the quoted example when present and
non-empty, else "Example not available". -/
theorem displayWordInfo_encode (e : DictionaryEntry) :
    displayWordInfo (some (encodeEntry e)) = .ok (expectedView e) := by
  obtain ⟨w, ph, phs, ms⟩ := e
  cases ph with
  | none =>
    unfold displayWordInfo encodeEntry expectedView
    simp only [List.nil_append, List.cons_append, List.append_nil]
    simp [jsGet, jsObjLookup, List.lookup, audioBlock_encode, meaningsBlock_encode,
      jsToStringOpt, jsToString, entryPartOfSpeech, entryDefinition, entryExample,
      jsTruthy]
    by_cases h1 : firstPartOfSpeech ms = "" <;>
      by_cases h2 : firstDefinitionText ms = "" <;>
        by_cases h3 : firstExampleText ms = "" <;>
          simp [h1, h2, h3, jsCapitalize, jsToString]
  | some p =>
    unfold displayWordInfo encodeEntry expectedView
    simp only [List.nil_append, List.cons_append, List.append_nil]
    simp [jsGet, jsObjLookup, List.lookup, audioBlock_encode, meaningsBlock_encode,
      jsToStringOpt, jsToString, entryPartOfSpeech, entryDefinition, entryExample,
      jsTruthy]
    by_cases hp : p = "" <;>
      by_cases h1 : firstPartOfSpeech ms = "" <;>
        by_cases h2 : firstDefinitionText ms = "" <;>
          by_cases h3 : firstExampleText ms = "" <;>
            simp [hp, h1, h2, h3, jsCapitalize, jsToString]

/-- Counterexample to C7 as stated: with `meanings` and `definitions` both
non-empty but the definition text equal to `""`, the claim requires the view
to show that (empty) definition, yet the renderer's `definition || '...'`
truthiness check shows the placeholder instead. -/
theorem displayWordInfo_empty_definition_counterexample :
    (displayWordInfo (some (encodeEntry
      { word := "a", phonetic := some "/a/", phonetics := [],
        meanings := [{ partOfSpeech := "noun",
                       definitions := [{ definition := "",
                                         exampleText := some "x" }] }] }))).map
        RenderedView.definitionText = .ok "Definition not available" ∧
    ("Definition not available" : String) ≠ "" :=
  ⟨rfl, by decide⟩
